import Mathlib

/-!
# Verification of the lsp-client transport core

Shallow embedding of `src/client.rs` and `src/parsing.rs` of the
`cmyr/lsp-client` repository, together with proofs settling the frozen
specification claims.  JSON values are modelled by an inductive `Json`
type (numbers restricted to integers, which covers the id arithmetic and
envelope shapes the code manipulates); byte streams are modelled as
`List Char` with explicit UTF-8 byte accounting (`Char.utf8Size`), so
that `request.len()` — a Rust *byte* length — is `utf8Len`, not a
character count.  Rust panics (`expect`, `unwrap`, `panic!`) are
modelled as an explicit `panicked` outcome; fallible functions return
`Except`/`Option`.
-/

namespace LspClient

/-- Model of `serde_json::value::Value`: JSON values, with numbers
restricted to integers and objects as association lists in insertion
order. -/
inductive Json where
  | null : Json
  | bool (b : Bool) : Json
  | num (n : Int) : Json
  | str (s : List Char) : Json
  | arr (elems : List Json) : Json
  | obj (members : List (List Char × Json)) : Json

/-! ## Decimal digits

`natChars n` is the standard base-10 rendering of `n` (the digits that
Rust's `Display` for integers and `format!` produce); `digitsVal`
folds digit characters back into a number (the core of
`usize::from_str_radix(s, 10)`). -/

theorem digitChar_toNat (d : Nat) (h : d < 10) : (Nat.digitChar d).toNat = 48 + d := by
  interval_cases d <;> decide

theorem digitChar_isDigit (d : Nat) (h : d < 10) : (Nat.digitChar d).isDigit := by
  interval_cases d <;> decide

/-- Base-10 rendering of a natural number, most significant digit first. -/
def natChars (n : Nat) : List Char :=
  if h : n < 10 then [Nat.digitChar n]
  else natChars (n / 10) ++ [Nat.digitChar (n % 10)]
decreasing_by exact Nat.div_lt_self (by omega) (by omega)

/-- Base-10 rendering of an integer (minus sign for negatives). -/
def intChars (i : Int) : List Char :=
  if i < 0 then '-' :: natChars (-i).toNat else natChars i.toNat

/-- Value of a base-10 digit string (digits assumed valid). -/
def digitsVal (l : List Char) : Nat :=
  l.foldl (fun a c => 10 * a + (c.toNat - 48)) 0

theorem digitsVal_append_digit (l : List Char) (c : Char) :
    digitsVal (l ++ [c]) = 10 * digitsVal l + (c.toNat - 48) := by
  simp [digitsVal]

theorem natChars_all_digit (n : Nat) : ∀ c ∈ natChars n, c.isDigit := by
  rw [natChars]
  split
  · intro c hc
    simp only [List.mem_singleton] at hc
    subst hc
    exact digitChar_isDigit n (by omega)
  · intro c hc
    simp only [List.mem_append, List.mem_singleton] at hc
    rcases hc with h | h
    · exact natChars_all_digit (n / 10) c h
    · subst h
      exact digitChar_isDigit (n % 10) (Nat.mod_lt _ (by omega))
decreasing_by exact Nat.div_lt_self (by omega) (by omega)

theorem natChars_ne_nil (n : Nat) : natChars n ≠ [] := by
  rw [natChars]
  split <;> simp

theorem digitsVal_natChars (n : Nat) : digitsVal (natChars n) = n := by
  rw [natChars]
  split
  · simp [digitsVal, digitChar_toNat n (by omega)]
  · rw [digitsVal_append_digit, digitsVal_natChars (n / 10),
      digitChar_toNat (n % 10) (Nat.mod_lt _ (by omega))]
    omega
decreasing_by exact Nat.div_lt_self (by omega) (by omega)

/-! ## UTF-8 byte accounting

Rust's `String::len` and `read_exact` count *bytes*; the stream model is
`List Char`, so byte positions are recovered with `Char.utf8Size`. -/

/-- Byte length of the UTF-8 encoding of a character sequence
(Rust `str::len`). -/
def utf8Len (l : List Char) : Nat := (l.map Char.utf8Size).sum

theorem utf8Len_nil : utf8Len [] = 0 := rfl

theorem utf8Len_cons (c : Char) (l : List Char) :
    utf8Len (c :: l) = c.utf8Size + utf8Len l := by
  simp [utf8Len]

/-- Model of `read_exact(n bytes)` followed by `String::from_utf8`:
take characters until exactly `n` bytes are consumed.  `none` models
either a short read (I/O error) or a count that falls inside a
multi-byte character (UTF-8 validation failure). -/
def takeUtf8 : Nat → List Char → Option (List Char × List Char)
  | 0, l => some ([], l)
  | n+1, [] => none
  | n+1, c :: rest =>
    if h : c.utf8Size ≤ n + 1 then
      (takeUtf8 (n + 1 - c.utf8Size) rest).map (fun p => (c :: p.1, p.2))
    else none
decreasing_by have := c.utf8Size_pos; omega

theorem takeUtf8_exact (l rest : List Char) :
    takeUtf8 (utf8Len l) (l ++ rest) = some (l, rest) := by
  induction l with
  | nil => simp [utf8Len, takeUtf8]
  | cons c l ih =>
    rw [utf8Len_cons]
    have hpos := c.utf8Size_pos
    have hn : c.utf8Size + utf8Len l = (c.utf8Size + utf8Len l - 1) + 1 := by omega
    rw [hn, List.cons_append, takeUtf8]
    have hle : c.utf8Size ≤ (c.utf8Size + utf8Len l - 1) + 1 := by omega
    rw [dif_pos hle]
    have : (c.utf8Size + utf8Len l - 1) + 1 - c.utf8Size = utf8Len l := by omega
    rw [this, ih]
    rfl

/-! ## Serialization (model of `serde_json::to_string` on `Value`)

Compact output: no whitespace, objects in stored order, strings with
the `serde_json` escape scheme (`\"`, `\\`, short escapes for the named
control characters, `\u00XX` for the remaining control characters,
all other characters emitted literally). -/

/-- Lowercase hex digit for a value `< 16`. -/
def hexChar (n : Nat) : Char := Nat.digitChar n

/-- `serde_json`'s escape of a single character inside a string literal. -/
def escapeChar (c : Char) : List Char :=
  if c = '"' then ['\\', '"']
  else if c = '\\' then ['\\', '\\']
  else if c = Char.ofNat 8 then ['\\', 'b']
  else if c = Char.ofNat 9 then ['\\', 't']
  else if c = Char.ofNat 10 then ['\\', 'n']
  else if c = Char.ofNat 12 then ['\\', 'f']
  else if c = Char.ofNat 13 then ['\\', 'r']
  else if c.toNat < 32 then ['\\', 'u', '0', '0', hexChar (c.toNat / 16), hexChar (c.toNat % 16)]
  else [c]

/-- Serialized JSON string literal: quote, escaped characters, quote. -/
def serString (s : List Char) : List Char :=
  '"' :: s.flatMap escapeChar ++ ['"']

mutual

/-- Compact JSON serialization of a value (model of
`serde_json::to_string`). -/
def serJson : Json → List Char
  | .num i => intChars i
  | .str s => serString s
  | .null => "null".toList
  | .bool b => if b then "true".toList else "false".toList
  | .arr es => '[' :: (serElems es ++ [']'])
  | .obj ms => '{' :: (serMembers ms ++ ['}'])

/-- Comma-separated serialization of array elements. -/
def serElems : List Json → List Char
  | [] => []
  | v :: vs => serJson v ++ serElemsTail vs

/-- Tail of an element list: each element preceded by a comma. -/
def serElemsTail : List Json → List Char
  | [] => []
  | v :: vs => ',' :: (serJson v ++ serElemsTail vs)

/-- Comma-separated serialization of object members (`"key":value`). -/
def serMembers : List (List Char × Json) → List Char
  | [] => []
  | (k, v) :: ms => serString k ++ ':' :: (serJson v ++ serMembersTail ms)

/-- Tail of a member list: each member preceded by a comma. -/
def serMembersTail : List (List Char × Json) → List Char
  | [] => []
  | (k, v) :: ms => ',' :: (serString k ++ ':' :: (serJson v ++ serMembersTail ms))

end

/-! ## JSON parsing (model of `serde_json::from_str::<Value>`)

A recursive-descent parser over the compact grammar the serializer
emits (the code only ever parses server frames, and the round-trip
claim only concerns serializer output).  Structural recursion handles
strings; a fuel parameter bounds nesting for values. -/

/-- Hex digit value (both cases accepted, as in JSON `\uXXXX` escapes). -/
def parseHexDigit (c : Char) : Option Nat :=
  if 48 ≤ c.toNat ∧ c.toNat ≤ 57 then some (c.toNat - 48)
  else if 97 ≤ c.toNat ∧ c.toNat ≤ 102 then some (c.toNat - 87)
  else if 65 ≤ c.toNat ∧ c.toNat ≤ 70 then some (c.toNat - 55)
  else none

/-- Decode one backslash escape (input begins just after the backslash);
returns the decoded character and the remaining input. -/
def parseEscape : List Char → Option (Char × List Char)
  | [] => none
  | e :: rest =>
    if e = '"' then some ('"', rest)
    else if e = '\\' then some ('\\', rest)
    else if e = '/' then some ('/', rest)
    else if e = 'b' then some (Char.ofNat 8, rest)
    else if e = 't' then some (Char.ofNat 9, rest)
    else if e = 'n' then some (Char.ofNat 10, rest)
    else if e = 'f' then some (Char.ofNat 12, rest)
    else if e = 'r' then some (Char.ofNat 13, rest)
    else if e = 'u' then
      match rest with
      | h1 :: h2 :: h3 :: h4 :: rest2 =>
        match parseHexDigit h1, parseHexDigit h2, parseHexDigit h3, parseHexDigit h4 with
        | some a, some b, some c, some d =>
          some (Char.ofNat (((a * 16 + b) * 16 + c) * 16 + d), rest2)
        | _, _, _, _ => none
      | _ => none
    else none

theorem parseEscape_shrinks (l : List Char) (p : Char × List Char)
    (h : parseEscape l = some p) : p.2.length < l.length := by
  match l with
  | [] => simp [parseEscape] at h
  | e :: rest =>
    simp only [parseEscape] at h
    split_ifs at h <;> try (injection h with h; subst h; simp)
    · match rest with
      | h1 :: h2 :: h3 :: h4 :: rest2 =>
        dsimp at h
        split at h
        · injection h with h
          subst h
          simp
          omega
        · exact absurd h (by simp)
      | [] => exact absurd h (by simp)
      | [_] => exact absurd h (by simp)
      | [_, _] => exact absurd h (by simp)
      | [_, _, _] => exact absurd h (by simp)

/-- Parse the body of a JSON string literal (after the opening quote),
returning the decoded characters and the input after the closing
quote. -/
def parseStringBody (l : List Char) : Option (List Char × List Char) :=
  match l with
  | [] => none
  | c :: rest =>
    if c = '"' then some ([], rest)
    else if c = '\\' then
      match h : parseEscape rest with
      | none => none
      | some p => (parseStringBody p.2).map (fun q => (p.1 :: q.1, q.2))
    else (parseStringBody rest).map (fun q => (c :: q.1, q.2))
termination_by l.length
decreasing_by
  · have := parseEscape_shrinks rest p h
    simp only [List.length_cons]
    omega
  · simp only [List.length_cons]
    omega

theorem parseHexDigit_hexChar (n : Nat) (h : n < 16) :
    parseHexDigit (hexChar n) = some n := by
  interval_cases n <;> decide

theorem parseEscape_escapeChar (c : Char) (t rest : List Char)
    (h : escapeChar c = '\\' :: t) : parseEscape (t ++ rest) = some (c, rest) := by
  by_cases hq : c = '"'
  · subst hq
    rw [show escapeChar '"' = ['\\', '"'] from by decide] at h
    injection h with _ h
    subst h
    simp [parseEscape]
  by_cases hbs : c = '\\'
  · subst hbs
    rw [show escapeChar '\\' = ['\\', '\\'] from by decide] at h
    injection h with _ h
    subst h
    simp [parseEscape]
  by_cases hb : c = Char.ofNat 8
  · subst hb
    rw [show escapeChar (Char.ofNat 8) = ['\\', 'b'] from by decide] at h
    injection h with _ h
    subst h
    simp [parseEscape]
  by_cases ht : c = Char.ofNat 9
  · subst ht
    rw [show escapeChar (Char.ofNat 9) = ['\\', 't'] from by decide] at h
    injection h with _ h
    subst h
    simp [parseEscape]
  by_cases hn : c = Char.ofNat 10
  · subst hn
    rw [show escapeChar (Char.ofNat 10) = ['\\', 'n'] from by decide] at h
    injection h with _ h
    subst h
    simp [parseEscape]
  by_cases hf : c = Char.ofNat 12
  · subst hf
    rw [show escapeChar (Char.ofNat 12) = ['\\', 'f'] from by decide] at h
    injection h with _ h
    subst h
    simp [parseEscape]
  by_cases hr : c = Char.ofNat 13
  · subst hr
    rw [show escapeChar (Char.ofNat 13) = ['\\', 'r'] from by decide] at h
    injection h with _ h
    subst h
    simp [parseEscape]
  by_cases hctl : c.toNat < 32
  · simp only [escapeChar, if_neg hq, if_neg hbs, if_neg hb, if_neg ht, if_neg hn,
      if_neg hf, if_neg hr, if_pos hctl] at h
    injection h with _ h
    subst h
    have hhi : c.toNat / 16 < 16 := by omega
    have hlo : c.toNat % 16 < 16 := by omega
    simp only [List.cons_append, List.nil_append]
    simp only [parseEscape]
    norm_num
    rw [show parseHexDigit '0' = some 0 from by decide, parseHexDigit_hexChar _ hhi,
      parseHexDigit_hexChar _ hlo]
    have hval : ((0 * 16 + 0) * 16 + c.toNat / 16) * 16 + c.toNat % 16 = c.toNat := by
      omega
    simp only [hval, Char.ofNat_toNat]
    split_ifs with h1 h2 h3 h4 h5 h6 h7 h8
    · exact absurd h1 (by decide)
    · exact absurd h2 (by decide)
    · exact absurd h3 (by decide)
    · exact absurd h4 (by decide)
    · exact absurd h5 (by decide)
    · exact absurd h6 (by decide)
    · exact absurd h7 (by decide)
    · exact absurd h8 (by decide)
    · rfl
  · simp only [escapeChar, if_neg hq, if_neg hbs, if_neg hb, if_neg ht, if_neg hn,
      if_neg hf, if_neg hr, if_neg hctl] at h
    injection h with h1 h2
    exact absurd h1 hbs

theorem parseStringBody_ser (s rest : List Char) :
    parseStringBody (s.flatMap escapeChar ++ '"' :: rest) = some (s, rest) := by
  induction s with
  | nil => simp [parseStringBody]
  | cons c s ih =>
    rw [List.flatMap_cons, List.append_assoc]
    by_cases hesc : ∃ t, escapeChar c = '\\' :: t
    · obtain ⟨t, hesct⟩ := hesc
      rw [hesct]
      rw [List.cons_append, parseStringBody]
      rw [if_neg (by decide), if_pos rfl]
      have := parseEscape_escapeChar c t (s.flatMap escapeChar ++ '"' :: rest) hesct
      split
      · rename_i heq
        rw [this] at heq
        exact absurd heq (by simp)
      · rename_i p heq
        rw [this] at heq
        injection heq with heq
        subst heq
        rw [ih]
        rfl
    · have hplain : escapeChar c = [c] ∧ c ≠ '"' ∧ c ≠ '\\' := by
        push_neg at hesc
        by_cases h1 : c = '"'
        · exact absurd (show escapeChar c = '\\' :: ['"'] by rw [h1]; decide) (hesc ['"'])
        by_cases h2 : c = '\\'
        · exact absurd (show escapeChar c = ['\\', '\\'] by rw [h2]; decide) (hesc ['\\'])
        by_cases h3 : c = Char.ofNat 8
        · exact absurd (show escapeChar c = ['\\', 'b'] by rw [h3]; decide) (hesc ['b'])
        by_cases h4 : c = Char.ofNat 9
        · exact absurd (show escapeChar c = ['\\', 't'] by rw [h4]; decide) (hesc ['t'])
        by_cases h5 : c = Char.ofNat 10
        · exact absurd (show escapeChar c = ['\\', 'n'] by rw [h5]; decide) (hesc ['n'])
        by_cases h6 : c = Char.ofNat 12
        · exact absurd (show escapeChar c = ['\\', 'f'] by rw [h6]; decide) (hesc ['f'])
        by_cases h7 : c = Char.ofNat 13
        · exact absurd (show escapeChar c = ['\\', 'r'] by rw [h7]; decide) (hesc ['r'])
        by_cases h8 : c.toNat < 32
        · exact absurd (show escapeChar c =
              ['\\', 'u', '0', '0', hexChar (c.toNat / 16), hexChar (c.toNat % 16)] by
            simp only [escapeChar, if_neg h1, if_neg h2, if_neg h3, if_neg h4, if_neg h5,
              if_neg h6, if_neg h7, if_pos h8])
            (hesc ['u', '0', '0', hexChar (c.toNat / 16), hexChar (c.toNat % 16)])
        · refine ⟨?_, h1, h2⟩
          simp only [escapeChar, if_neg h1, if_neg h2, if_neg h3, if_neg h4, if_neg h5,
            if_neg h6, if_neg h7, if_neg h8]
      obtain ⟨he, hq, hbs⟩ := hplain
      rw [he, List.cons_append, List.nil_append, parseStringBody,
        if_neg hq, if_neg hbs, ih]
      rfl

/-- Take the maximal leading run of decimal digits. -/
def takeDigits : List Char → List Char × List Char
  | [] => ([], [])
  | c :: rest =>
    if c.isDigit then
      let p := takeDigits rest
      (c :: p.1, p.2)
    else ([], c :: rest)

/-- Require `expected` as a prefix of the input; return the remainder. -/
def expectChars : List Char → List Char → Option (List Char)
  | [], input => some input
  | _ :: _, [] => none
  | e :: es, c :: rest => if c = e then expectChars es rest else none

mutual

/-- Parse one JSON value from the front of the input (fuel bounds the
nesting depth); returns the value and the remaining input. -/
def parseVal : Nat → List Char → Option (Json × List Char)
  | 0, _ => none
  | _ + 1, [] => none
  | fuel + 1, c :: rest =>
    if c = 'n' then (expectChars ['u', 'l', 'l'] rest).map (fun r => (Json.null, r))
    else if c = 't' then (expectChars ['r', 'u', 'e'] rest).map (fun r => (Json.bool true, r))
    else if c = 'f' then (expectChars ['a', 'l', 's', 'e'] rest).map (fun r => (Json.bool false, r))
    else if c = '"' then (parseStringBody rest).map (fun p => (Json.str p.1, p.2))
    else if c = '[' then (parseElems fuel rest).map (fun p => (Json.arr p.1, p.2))
    else if c = '{' then (parseMembers fuel rest).map (fun p => (Json.obj p.1, p.2))
    else if c = '-' then
      match takeDigits rest with
      | ([], _) => none
      | (ds, r) => some (Json.num (-(digitsVal ds : Int)), r)
    else if c.isDigit then
      let p := takeDigits (c :: rest)
      some (Json.num (digitsVal p.1), p.2)
    else none

/-- Parse array elements after `[`: either an immediate `]` or a first
element followed by the tail. -/
def parseElems : Nat → List Char → Option (List Json × List Char)
  | 0, _ => none
  | _ + 1, [] => none
  | fuel + 1, c :: rest =>
    if c = ']' then some ([], rest)
    else
      match parseVal fuel (c :: rest) with
      | none => none
      | some (v, r) =>
        match parseElemsTail fuel r with
        | none => none
        | some (vs, r2) => some (v :: vs, r2)

/-- Parse the rest of an element list: `]` ends it, `,` precedes the
next element. -/
def parseElemsTail : Nat → List Char → Option (List Json × List Char)
  | 0, _ => none
  | _ + 1, [] => none
  | fuel + 1, c :: rest =>
    if c = ']' then some ([], rest)
    else if c = ',' then
      match parseVal fuel rest with
      | none => none
      | some (v, r) =>
        match parseElemsTail fuel r with
        | none => none
        | some (vs, r2) => some (v :: vs, r2)
    else none

/-- Parse object members after `{`: either an immediate `}` or a first
`"key":value` member followed by the tail. -/
def parseMembers : Nat → List Char → Option (List (List Char × Json) × List Char)
  | 0, _ => none
  | _ + 1, [] => none
  | fuel + 1, c :: rest =>
    if c = '}' then some ([], rest)
    else if c = '"' then
      match parseStringBody rest with
      | none => none
      | some (k, r) =>
        match r with
        | ':' :: r2 =>
          match parseVal fuel r2 with
          | none => none
          | some (v, r3) =>
            match parseMembersTail fuel r3 with
            | none => none
            | some (ms, r4) => some ((k, v) :: ms, r4)
        | _ => none
    else none

/-- Parse the rest of a member list: `}` ends it, `,` precedes the next
member. -/
def parseMembersTail : Nat → List Char → Option (List (List Char × Json) × List Char)
  | 0, _ => none
  | _ + 1, [] => none
  | fuel + 1, c :: rest =>
    if c = '}' then some ([], rest)
    else if c = ',' then
      match rest with
      | '"' :: r0 =>
        match parseStringBody r0 with
        | none => none
        | some (k, r) =>
          match r with
          | ':' :: r2 =>
            match parseVal fuel r2 with
            | none => none
            | some (v, r3) =>
              match parseMembersTail fuel r3 with
              | none => none
              | some (ms, r4) => some ((k, v) :: ms, r4)
          | _ => none
      | _ => none
    else none

end

/-! ## Round-trip: the parser inverts the serializer -/

/-- True when the remaining input cannot extend a number token. -/
def noDigitHead : List Char → Bool
  | [] => true
  | c :: _ => !c.isDigit

theorem takeDigits_of_digits (ds rest : List Char) (hd : ∀ c ∈ ds, c.isDigit)
    (hr : noDigitHead rest = true) : takeDigits (ds ++ rest) = (ds, rest) := by
  induction ds with
  | nil =>
    cases rest with
    | nil => rfl
    | cons c r =>
      simp only [noDigitHead, Bool.not_eq_true'] at hr
      simp [takeDigits, hr]
  | cons c ds ih =>
    simp [takeDigits, hd c (by simp), ih (fun x hx => hd x (by simp [hx]))]

/-- Every serialized value begins with one of the value-start characters. -/
theorem serJson_head (v : Json) : ∃ c cs, serJson v = c :: cs ∧
    (c = 'n' ∨ c = 't' ∨ c = 'f' ∨ c = '-' ∨ c.isDigit = true ∨
      c = '"' ∨ c = '[' ∨ c = '{') := by
  cases v with
  | null => exact ⟨'n', ['u', 'l', 'l'], by simp [serJson], by simp⟩
  | bool b =>
    cases b
    · exact ⟨'f', ['a', 'l', 's', 'e'], by simp [serJson], by simp⟩
    · exact ⟨'t', ['r', 'u', 'e'], by simp [serJson], by simp⟩
  | num i =>
    by_cases hi : i < 0
    · exact ⟨'-', natChars (-i).toNat, by simp [serJson, intChars, hi], by simp⟩
    · have hser : serJson (.num i) = natChars i.toNat := by simp [serJson, intChars, hi]
      cases hnc : natChars i.toNat with
      | nil => exact absurd hnc (natChars_ne_nil _)
      | cons c cs =>
        refine ⟨c, cs, by rw [hser, hnc], ?_⟩
        have hd := natChars_all_digit i.toNat c (by rw [hnc]; simp)
        tauto
  | str s =>
    exact ⟨'"', s.flatMap escapeChar ++ ['"'], by simp [serJson, serString], by simp⟩
  | arr es => exact ⟨'[', serElems es ++ [']'], by simp [serJson], by simp⟩
  | obj ms => exact ⟨'{', serMembers ms ++ ['}'], by simp [serJson], by simp⟩

mutual

/-- Fuel sufficient for `parseVal` on a serialized value. -/
def pfuel : Json → Nat
  | .arr es => efuel es + 1
  | .obj ms => mfuel ms + 1
  | _ => 1

def efuel : List Json → Nat
  | [] => 1
  | v :: vs => max (pfuel v) (efuel vs) + 1

def mfuel : List (List Char × Json) → Nat
  | [] => 1
  | (_, v) :: ms => max (pfuel v) (mfuel ms) + 1

end

theorem pfuel_pos (v : Json) : 1 ≤ pfuel v := by
  cases v <;> simp [pfuel]

theorem efuel_pos (es : List Json) : 1 ≤ efuel es := by
  cases es <;> simp [efuel]

theorem mfuel_pos (ms : List (List Char × Json)) : 1 ≤ mfuel ms := by
  cases ms with
  | nil => simp [mfuel]
  | cons m ms => obtain ⟨k, v⟩ := m; simp [mfuel]

theorem noDigitHead_serElemsTail (vs : List Json) (rest : List Char) :
    noDigitHead (serElemsTail vs ++ ']' :: rest) = true := by
  cases vs <;> simp [serElemsTail, noDigitHead]

theorem noDigitHead_serMembersTail (ms : List (List Char × Json)) (rest : List Char) :
    noDigitHead (serMembersTail ms ++ '}' :: rest) = true := by
  cases ms with
  | nil => simp [serMembersTail, noDigitHead]
  | cons m ms => obtain ⟨k, v⟩ := m; simp [serMembersTail, noDigitHead]

mutual

/-- The value parser inverts the serializer (with enough fuel, and any
continuation that cannot extend a number token). -/
theorem parseVal_ser (v : Json) (fuel : Nat) (rest : List Char)
    (hf : pfuel v ≤ fuel) (hr : noDigitHead rest = true) :
    parseVal fuel (serJson v ++ rest) = some (v, rest) := by
  obtain ⟨f, rfl⟩ : ∃ f, fuel = f + 1 := ⟨fuel - 1, by have := pfuel_pos v; omega⟩
  cases v with
  | null => simp [serJson, parseVal, expectChars]
  | bool b => cases b <;> simp [serJson, parseVal, expectChars]
  | str s =>
    have hser : serJson (.str s) ++ rest = '"' :: (s.flatMap escapeChar ++ '"' :: rest) := by
      simp [serJson, serString]
    rw [hser]
    simp [parseVal, parseStringBody_ser]
  | num i =>
    by_cases hi : i < 0
    · have hser : serJson (.num i) ++ rest = '-' :: (natChars (-i).toNat ++ rest) := by
        simp [serJson, intChars, hi]
      rw [hser]
      cases hnc : natChars (-i).toNat with
      | nil => exact absurd hnc (natChars_ne_nil _)
      | cons c cs =>
        have hds : takeDigits (c :: (cs ++ rest)) = (c :: cs, rest) := by
          have hx := takeDigits_of_digits (c :: cs) rest (fun x hx => by
            exact natChars_all_digit (-i).toNat x (by rw [hnc]; exact hx)) hr
          simpa using hx
        have hdv : digitsVal (c :: cs) = (-i).toNat := by
          rw [← hnc, digitsVal_natChars]
        have hneg : -(((-i).toNat : Nat) : Int) = i := by omega
        simp [parseVal, hds, hdv, hneg]
        omega
    · have hser : serJson (.num i) ++ rest = natChars i.toNat ++ rest := by
        simp [serJson, intChars, hi]
      rw [hser]
      cases hnc : natChars i.toNat with
      | nil => exact absurd hnc (natChars_ne_nil _)
      | cons c cs =>
        have hdc : c.isDigit = true :=
          natChars_all_digit i.toNat c (by rw [hnc]; simp)
        have h1 : ¬c = 'n' := by intro e; rw [e] at hdc; exact absurd hdc (by decide)
        have h2 : ¬c = 't' := by intro e; rw [e] at hdc; exact absurd hdc (by decide)
        have h3 : ¬c = 'f' := by intro e; rw [e] at hdc; exact absurd hdc (by decide)
        have h4 : ¬c = '"' := by intro e; rw [e] at hdc; exact absurd hdc (by decide)
        have h5 : ¬c = '[' := by intro e; rw [e] at hdc; exact absurd hdc (by decide)
        have h6 : ¬c = '{' := by intro e; rw [e] at hdc; exact absurd hdc (by decide)
        have h7 : ¬c = '-' := by intro e; rw [e] at hdc; exact absurd hdc (by decide)
        have hds : takeDigits ((c :: cs) ++ rest) = (c :: cs, rest) :=
          takeDigits_of_digits _ rest (fun x hx => by
            exact natChars_all_digit i.toNat x (by rw [hnc]; exact hx)) hr
        have hdv : digitsVal (c :: cs) = i.toNat := by
          rw [← hnc, digitsVal_natChars]
        have hds' : takeDigits (c :: (cs ++ rest)) = (c :: cs, rest) := by
          simpa using hds
        have hpos : ((i.toNat : Nat) : Int) = i := Int.toNat_of_nonneg (by omega)
        simp only [List.cons_append, parseVal, if_neg h1, if_neg h2, if_neg h3,
          if_neg h4, if_neg h5, if_neg h6, if_neg h7, if_pos hdc]
        simp [hds', hdv, hpos]
  | arr es =>
    have hfe : efuel es ≤ f := by simp [pfuel] at hf; omega
    have hser : serJson (.arr es) ++ rest = '[' :: (serElems es ++ ']' :: rest) := by
      simp [serJson]
    rw [hser]
    simp [parseVal, parseElems_ser es f rest hfe]
  | obj ms =>
    have hfm : mfuel ms ≤ f := by simp [pfuel] at hf; omega
    have hser : serJson (.obj ms) ++ rest = '{' :: (serMembers ms ++ '}' :: rest) := by
      simp [serJson]
    rw [hser]
    simp [parseVal, parseMembers_ser ms f rest hfm]

/-- The element-list parser inverts the element serializer. -/
theorem parseElems_ser (es : List Json) (fuel : Nat) (rest : List Char)
    (hf : efuel es ≤ fuel) :
    parseElems fuel (serElems es ++ ']' :: rest) = some (es, rest) := by
  obtain ⟨f, rfl⟩ : ∃ f, fuel = f + 1 := ⟨fuel - 1, by have := efuel_pos es; omega⟩
  cases es with
  | nil => simp [serElems, parseElems]
  | cons v vs =>
    have hfv : pfuel v ≤ f := by
      simp [efuel] at hf
      have := le_max_left (pfuel v) (efuel vs)
      omega
    have hfvs : efuel vs ≤ f := by
      simp [efuel] at hf
      have := le_max_right (pfuel v) (efuel vs)
      omega
    obtain ⟨c, cs, hv, hcs⟩ := serJson_head v
    have hne : ¬c = ']' := by
      rcases hcs with rfl | rfl | rfl | rfl | hd | rfl | rfl | rfl
      all_goals first
        | decide
        | (intro e; rw [e] at hd; exact absurd hd (by decide))
    have hinput : serElems (v :: vs) ++ ']' :: rest
        = c :: (cs ++ (serElemsTail vs ++ ']' :: rest)) := by
      simp [serElems, hv]
    rw [hinput]
    simp only [parseElems, if_neg hne]
    have hpv : parseVal f (c :: (cs ++ (serElemsTail vs ++ ']' :: rest)))
        = some (v, serElemsTail vs ++ ']' :: rest) := by
      have hx := parseVal_ser v f (serElemsTail vs ++ ']' :: rest) hfv
        (noDigitHead_serElemsTail vs rest)
      rw [hv] at hx
      simpa using hx
    rw [hpv]
    simp [parseElemsTail_ser vs f rest hfvs]

/-- The element-tail parser inverts the element-tail serializer. -/
theorem parseElemsTail_ser (vs : List Json) (fuel : Nat) (rest : List Char)
    (hf : efuel vs ≤ fuel) :
    parseElemsTail fuel (serElemsTail vs ++ ']' :: rest) = some (vs, rest) := by
  obtain ⟨f, rfl⟩ : ∃ f, fuel = f + 1 := ⟨fuel - 1, by have := efuel_pos vs; omega⟩
  cases vs with
  | nil => simp [serElemsTail, parseElemsTail]
  | cons v vs =>
    have hfv : pfuel v ≤ f := by
      simp [efuel] at hf
      have := le_max_left (pfuel v) (efuel vs)
      omega
    have hfvs : efuel vs ≤ f := by
      simp [efuel] at hf
      have := le_max_right (pfuel v) (efuel vs)
      omega
    have hser : serElemsTail (v :: vs) ++ ']' :: rest
        = ',' :: (serJson v ++ (serElemsTail vs ++ ']' :: rest)) := by
      simp [serElemsTail]
    rw [hser]
    simp only [parseElemsTail, if_neg (show ¬(',' : Char) = ']' from by decide),
      if_pos (show (',' : Char) = ',' from rfl)]
    rw [parseVal_ser v f (serElemsTail vs ++ ']' :: rest) hfv
      (noDigitHead_serElemsTail vs rest)]
    simp [parseElemsTail_ser vs f rest hfvs]

/-- The member-list parser inverts the member serializer. -/
theorem parseMembers_ser (ms : List (List Char × Json)) (fuel : Nat) (rest : List Char)
    (hf : mfuel ms ≤ fuel) :
    parseMembers fuel (serMembers ms ++ '}' :: rest) = some (ms, rest) := by
  obtain ⟨f, rfl⟩ : ∃ f, fuel = f + 1 := ⟨fuel - 1, by have := mfuel_pos ms; omega⟩
  cases ms with
  | nil => simp [serMembers, parseMembers]
  | cons m ms =>
    obtain ⟨k, v⟩ := m
    have hfv : pfuel v ≤ f := by
      simp [mfuel] at hf
      have := le_max_left (pfuel v) (mfuel ms)
      omega
    have hfms : mfuel ms ≤ f := by
      simp [mfuel] at hf
      have := le_max_right (pfuel v) (mfuel ms)
      omega
    have hser : serMembers ((k, v) :: ms) ++ '}' :: rest
        = '"' :: (k.flatMap escapeChar
            ++ '"' :: (':' :: (serJson v ++ (serMembersTail ms ++ '}' :: rest)))) := by
      simp [serMembers, serString]
    rw [hser]
    have hpsb := parseStringBody_ser k
      (':' :: (serJson v ++ (serMembersTail ms ++ '}' :: rest)))
    have hpv := parseVal_ser v f (serMembersTail ms ++ '}' :: rest) hfv
      (noDigitHead_serMembersTail ms rest)
    have hpt := parseMembersTail_ser ms f rest hfms
    simp [parseMembers, hpsb, hpv, hpt]

/-- The member-tail parser inverts the member-tail serializer. -/
theorem parseMembersTail_ser (ms : List (List Char × Json)) (fuel : Nat)
    (rest : List Char) (hf : mfuel ms ≤ fuel) :
    parseMembersTail fuel (serMembersTail ms ++ '}' :: rest) = some (ms, rest) := by
  obtain ⟨f, rfl⟩ : ∃ f, fuel = f + 1 := ⟨fuel - 1, by have := mfuel_pos ms; omega⟩
  cases ms with
  | nil => simp [serMembersTail, parseMembersTail]
  | cons m ms =>
    obtain ⟨k, v⟩ := m
    have hfv : pfuel v ≤ f := by
      simp [mfuel] at hf
      have := le_max_left (pfuel v) (mfuel ms)
      omega
    have hfms : mfuel ms ≤ f := by
      simp [mfuel] at hf
      have := le_max_right (pfuel v) (mfuel ms)
      omega
    have hser : serMembersTail ((k, v) :: ms) ++ '}' :: rest
        = ',' :: ('"' :: (k.flatMap escapeChar
            ++ '"' :: (':' :: (serJson v ++ (serMembersTail ms ++ '}' :: rest))))) := by
      simp [serMembersTail, serString]
    rw [hser]
    have hpsb := parseStringBody_ser k
      (':' :: (serJson v ++ (serMembersTail ms ++ '}' :: rest)))
    have hpv := parseVal_ser v f (serMembersTail ms ++ '}' :: rest) hfv
      (noDigitHead_serMembersTail ms rest)
    have hpt := parseMembersTail_ser ms f rest hfms
    simp [parseMembersTail, hpsb, hpv, hpt]

end

theorem serJson_length_pos (v : Json) : 1 ≤ (serJson v).length := by
  obtain ⟨c, cs, hv, _⟩ := serJson_head v
  rw [hv]
  simp

mutual

/-- The serialized form is long enough to supply parser fuel. -/
theorem pfuel_le_length (v : Json) : pfuel v ≤ (serJson v).length := by
  cases v with
  | null => simp [pfuel, serJson]
  | bool b => cases b <;> simp [pfuel, serJson]
  | num i =>
    have := serJson_length_pos (.num i)
    simp [pfuel]
    omega
  | str s =>
    have := serJson_length_pos (.str s)
    simp [pfuel]
    omega
  | arr es =>
    have h := efuel_le_length es
    simp [pfuel, serJson]
    omega
  | obj ms =>
    have h := mfuel_le_length ms
    simp [pfuel, serJson]
    omega

/-- Element-list fuel bound. -/
theorem efuel_le_length (es : List Json) :
    efuel es ≤ (serElems es).length + 1 := by
  cases es with
  | nil => simp [efuel, serElems]
  | cons v vs =>
    have h1 := pfuel_le_length v
    have h2 := efuelTail_le_length vs
    have h3 := serJson_length_pos v
    simp [efuel, serElems]
    omega

/-- Element-tail fuel bound. -/
theorem efuelTail_le_length (vs : List Json) :
    efuel vs ≤ (serElemsTail vs).length + 1 := by
  cases vs with
  | nil => simp [efuel, serElemsTail]
  | cons v vs =>
    have h1 := pfuel_le_length v
    have h2 := efuelTail_le_length vs
    simp [efuel, serElemsTail]
    omega

/-- Member-list fuel bound. -/
theorem mfuel_le_length (ms : List (List Char × Json)) :
    mfuel ms ≤ (serMembers ms).length + 1 := by
  cases ms with
  | nil => simp [mfuel, serMembers]
  | cons m ms =>
    obtain ⟨k, v⟩ := m
    have h1 := pfuel_le_length v
    have h2 := mfuelTail_le_length ms
    simp [mfuel, serMembers, serString]
    omega

/-- Member-tail fuel bound. -/
theorem mfuelTail_le_length (ms : List (List Char × Json)) :
    mfuel ms ≤ (serMembersTail ms).length + 1 := by
  cases ms with
  | nil => simp [mfuel, serMembersTail]
  | cons m ms =>
    obtain ⟨k, v⟩ := m
    have h1 := pfuel_le_length v
    have h2 := mfuelTail_le_length ms
    simp [mfuel, serMembersTail, serString]
    omega

end

/-- Whitespace as recognized by both the JSON grammar and Rust's
`str::trim` on header lines (the characters that actually occur on this
wire). -/
def isWs (c : Char) : Bool :=
  c = ' ' || c = '\t' || c = '\n' || c = '\r'

/-- Model of `serde_json::from_str::<Value>`: skip leading whitespace,
parse one value, and require that only whitespace follows.  (The model
parser covers the compact grammar plus surrounding whitespace — the
only shapes this client ever parses or that the claims exercise.) -/
def from_str (l : List Char) : Option Json :=
  match parseVal (l.length + 1) (l.dropWhile isWs) with
  | some (v, rest) => if rest.all isWs then some v else none
  | none => none

theorem dropWhile_isWs_serJson (v : Json) :
    (serJson v).dropWhile isWs = serJson v := by
  obtain ⟨c, cs, hv, hcs⟩ := serJson_head v
  have hnw : isWs c = false := by
    rcases hcs with rfl | rfl | rfl | rfl | hd | rfl | rfl | rfl
    all_goals first
      | decide
      | (simp only [isWs, Bool.or_eq_false_iff, decide_eq_false_iff_not]
         refine ⟨⟨⟨?_, ?_⟩, ?_⟩, ?_⟩ <;> (intro e; rw [e] at hd; exact absurd hd (by decide)))
  rw [hv, List.dropWhile_cons_of_neg (by simp [hnw])]

/-- `from_str` inverts `serJson`: the heart of the round-trip. -/
theorem from_str_serJson (v : Json) : from_str (serJson v) = some v := by
  have hb : pfuel v ≤ (serJson v).length + 1 :=
    le_trans (pfuel_le_length v) (by omega)
  have hp := parseVal_ser v ((serJson v).length + 1) [] hb rfl
  rw [List.append_nil] at hp
  unfold from_str
  rw [dropWhile_isWs_serJson, hp]
  rfl

/-! ## Message framing (src/parsing.rs)

`read_message` reads header lines until a blank line, requires a
`content-length`, then reads that many bytes and parses them as JSON.
The byte stream is a `List Char`; positions are counted in UTF-8 bytes
where the source counts bytes. -/

/-- Model of `ParseError` from src/parsing.rs (payloads reduced to the
static part of the message; the `Unknown` constructor keeps its format
tag). -/
inductive ParseError where
  | ioErr : ParseError
  | parseIntErr : ParseError
  | utf8Err : ParseError
  | jsonErr : ParseError
  | unknown (msg : String) : ParseError
deriving DecidableEq, Repr

/-- Model of `BufRead::read_line`: take characters up to and including
the first newline (or the whole input at EOF); returns the line and the
remaining input.  At EOF the line is empty. -/
def readLine : List Char → List Char × List Char
  | [] => ([], [])
  | c :: rest =>
    if c = '\n' then ([c], rest)
    else
      let p := readLine rest
      (c :: p.1, p.2)

/-- Model of `str::trim` on header lines (ASCII whitespace suffices for
this wire). -/
def trimChars (l : List Char) : List Char :=
  (((l.dropWhile isWs).reverse).dropWhile isWs).reverse

/-- Model of `str::to_lowercase` (ASCII case folding suffices for the
header names on this wire). -/
def lowerStr (l : List Char) : List Char := l.map Char.toLower

/-- Prepend a character to the first chunk of a split result. -/
def consHead (c : Char) : List (List Char) → List (List Char)
  | [] => [[c]]
  | h :: t => (c :: h) :: t

/-- Model of `str::split(": ")`: split on every (non-overlapping,
left-to-right) occurrence of the two-character separator `": "`. -/
def splitColonSpace (l : List Char) : List (List Char) :=
  match l with
  | [] => [[]]
  | c :: rest =>
    if c = ':' ∧ rest.head? = some ' ' then [] :: splitColonSpace rest.tail
    else consHead c (splitColonSpace rest)
termination_by l.length
decreasing_by
  all_goals simp only [List.length_cons]
  · have : rest.tail.length ≤ rest.length := by
      cases rest <;> simp
    omega
  · omega

/-- Model of `usize::from_str_radix(s, 10)`: an optional leading `+`
followed by one or more decimal digits (a leading `-` is not accepted
for an unsigned type). -/
def parseUsize (l : List Char) : Option Nat :=
  let digits := if l.head? = some '+' then l.tail else l
  if digits.isEmpty then none
  else if digits.all Char.isDigit then some (digitsVal digits) else none

/-- Model of `LspHeader` from src/parsing.rs. -/
inductive LspHeader where
  | contentType : LspHeader
  | contentLength (n : Nat) : LspHeader
deriving DecidableEq, Repr

/-- Model of `parse_header` (src/parsing.rs lines 124-132): split on
`": "`, require exactly two parts, trim and lowercase each, then
recognize exactly `content-type` and `content-length`. -/
def parse_header (s : List Char) : Except ParseError LspHeader :=
  let split := (splitColonSpace s).map (fun part => lowerStr (trimChars part))
  match split with
  | [name, value] =>
    if name = "content-type".toList then Except.ok LspHeader.contentType
    else if name = "content-length".toList then
      match parseUsize value with
      | some n => Except.ok (LspHeader.contentLength n)
      | none => Except.error ParseError.parseIntErr
    else Except.error (ParseError.unknown "Unknown header")
  | _ => Except.error (ParseError.unknown "malformed header")

theorem readLine_length (l : List Char) :
    (readLine l).1.length + (readLine l).2.length = l.length := by
  induction l with
  | nil => rfl
  | cons c rest ih =>
    simp only [readLine]
    split
    · simp only [List.length_cons, List.length_nil]
      omega
    · simp only [List.length_cons]
      omega

theorem readLine_fst_ne (l : List Char) (h : l ≠ []) : (readLine l).1 ≠ [] := by
  cases l with
  | nil => exact absurd rfl h
  | cons c rest =>
    simp only [readLine]
    split <;> simp

theorem readLine_snd_lt (l : List Char) (h : (readLine l).1 ≠ []) :
    (readLine l).2.length < l.length := by
  have hlen := readLine_length l
  have hpos : 1 ≤ (readLine l).1.length := List.length_pos.mpr h
  omega

/-- Model of the header loop of `read_message` (src/parsing.rs lines
98-110): read lines until one trims to empty, folding each parsed
header into the running `content_length` (a later `content-length`
overwrites an earlier one).  Returns the outcome together with the
not-yet-consumed input. -/
def readHeaders (input : List Char) (cl : Option Nat) :
    Except ParseError (Option Nat) × List Char :=
  let p := readLine input
  if h : trimChars p.1 = [] then (Except.ok cl, p.2)
  else
    match parse_header p.1 with
    | Except.error e => (Except.error e, p.2)
    | Except.ok LspHeader.contentType => readHeaders p.2 cl
    | Except.ok (LspHeader.contentLength n) => readHeaders p.2 (some n)
termination_by input.length
decreasing_by
  all_goals
    exact readLine_snd_lt input (fun hnil => h (by rw [hnil]; rfl))

/-- Model of `read_message` (src/parsing.rs lines 93-118): header loop,
mandatory `content-length`, exact body read, UTF-8 validation, JSON
parse.  Returns the result together with the remaining input (the
source advances the reader; on a failed exact read the source may have
consumed an unspecified amount, modelled as the whole input). -/
def read_message (input : List Char) : Except ParseError Json × List Char :=
  match readHeaders input none with
  | (Except.error e, rest) => (Except.error e, rest)
  | (Except.ok none, rest) =>
    (Except.error (ParseError.unknown "missing content-length header"), rest)
  | (Except.ok (some n), rest) =>
    match takeUtf8 n rest with
    | none => (Except.error ParseError.ioErr, [])
    | some (body, rest2) =>
      match from_str body with
      | some v => (Except.ok v, rest2)
      | none => (Except.error ParseError.jsonErr, rest2)

/-- Model of `serde_json::to_string(&Value)`: serializing an in-memory
`Value` does not fail (no non-string keys, no non-finite numbers), so
the result is always `Ok`. -/
def to_string_value (msg : Json) : Except String (List Char) :=
  Except.ok (serJson msg)

/-- Model of `prepare_lsp_json` (src/client.rs lines 40-43):
`format!("Content-Length: {}\r\n\r\n{}", request.len(), request)` where
`request.len()` is the byte length of the serialized body. -/
def prepare_lsp_json (msg : Json) : Except String (List Char) :=
  match to_string_value msg with
  | Except.error e => Except.error e
  | Except.ok request =>
    Except.ok ("Content-Length: ".toList ++ natChars (utf8Len request)
      ++ "\r\n\r\n".toList ++ request)

/-! ## Header-chain lemmas -/

theorem ne_of_digit_of_not (c x : Char) (h : c.isDigit = true)
    (hx : x.isDigit = false) : ¬c = x := by
  intro e
  rw [e] at h
  rw [h] at hx
  exact Bool.noConfusion hx

theorem toLower_digit (c : Char) (h : c.isDigit = true) : c.toLower = c := by
  simp only [Char.isDigit, Bool.and_eq_true, decide_eq_true_eq] at h
  have h57 : c.toNat ≤ 57 := h.2
  unfold Char.toLower
  rw [if_neg]
  omega

theorem lowerStr_digits (d : List Char) (hd : ∀ c ∈ d, c.isDigit) :
    lowerStr d = d := by
  induction d with
  | nil => rfl
  | cons c cs ih =>
    simp only [lowerStr, List.map_cons, toLower_digit c (hd c (by simp))]
    rw [show List.map Char.toLower cs = lowerStr cs from rfl,
      ih (fun x hx => hd x (by simp [hx]))]

theorem ws_false_of_digit (c : Char) (h : c.isDigit = true) : isWs c = false := by
  by_contra hb
  have hw : isWs c = true := by simpa using hb
  simp only [isWs, Bool.or_eq_true, decide_eq_true_eq] at hw
  have hcase : c = ' ' ∨ c = '\t' ∨ c = '\n' ∨ c = '\r' := by tauto
  rcases hcase with e | e | e | e <;> (rw [e] at h; exact absurd h (by decide))

theorem dropWhile_isWs_of_all (l : List Char) (h : ∀ c ∈ l, isWs c = false) :
    l.dropWhile isWs = l := by
  cases l with
  | nil => rfl
  | cons c cs => exact List.dropWhile_cons_of_neg (by simp [h c (by simp)])

theorem trimChars_of_all (l : List Char) (h : ∀ c ∈ l, isWs c = false) :
    trimChars l = l := by
  unfold trimChars
  rw [dropWhile_isWs_of_all l h,
    dropWhile_isWs_of_all l.reverse (fun c hc => h c (List.mem_reverse.mp hc)),
    List.reverse_reverse]

theorem filter_dropWhile_isWs (l : List Char) :
    (l.dropWhile isWs).filter (fun c => !isWs c) = l.filter (fun c => !isWs c) := by
  induction l with
  | nil => rfl
  | cons c cs ih =>
    by_cases h : isWs c = true
    · rw [List.dropWhile_cons_of_pos (by simp [h]), ih, List.filter_cons_of_neg (by simp [h])]
    · rw [List.dropWhile_cons_of_neg (by simp [h])]

theorem filter_trimChars (l : List Char) :
    (trimChars l).filter (fun c => !isWs c) = l.filter (fun c => !isWs c) := by
  unfold trimChars
  rw [List.filter_reverse, filter_dropWhile_isWs, List.filter_reverse,
    List.reverse_reverse, filter_dropWhile_isWs]

theorem trimChars_ne_nil (l : List Char) (c : Char) (hc : c ∈ l)
    (hw : isWs c = false) : trimChars l ≠ [] := by
  intro h
  have hf := filter_trimChars l
  rw [h] at hf
  have hmem : c ∈ l.filter (fun c => !isWs c) :=
    List.mem_filter.mpr ⟨hc, by simp [hw]⟩
  rw [← hf] at hmem
  exact absurd hmem (by simp)

theorem trimChars_digits_crlf (d : List Char) (hd : ∀ c ∈ d, c.isDigit)
    (hne : d ≠ []) : trimChars (d ++ ['\r', '\n']) = d := by
  obtain ⟨c, cs, rfl⟩ := List.exists_cons_of_ne_nil hne
  unfold trimChars
  have hcw : isWs c = false := ws_false_of_digit c (hd c (by simp))
  rw [List.cons_append, List.dropWhile_cons_of_neg (by simp [hcw])]
  rw [show (c :: (cs ++ ['\r', '\n'])).reverse
      = '\n' :: '\r' :: (c :: cs).reverse from by simp]
  rw [List.dropWhile_cons_of_pos (by decide), List.dropWhile_cons_of_pos (by decide)]
  rw [dropWhile_isWs_of_all (c :: cs).reverse (fun x hx =>
    ws_false_of_digit x (hd x (List.mem_reverse.mp hx)))]
  simp

theorem readLine_append (a b : List Char) (h : '\n' ∉ a) :
    readLine (a ++ '\n' :: b) = (a ++ ['\n'], b) := by
  induction a with
  | nil => simp [readLine]
  | cons c cs ih =>
    have hc : ¬c = '\n' := by intro e; exact h (by simp [e])
    simp only [List.cons_append, readLine, if_neg hc, List.append_eq,
      ih (fun hx => h (by simp [hx]))]

theorem splitColonSpace_no_colon (l : List Char) (h : ∀ c ∈ l, ¬c = ':') :
    splitColonSpace l = [l] := by
  induction l with
  | nil => rw [splitColonSpace]
  | cons c cs ih =>
    rw [splitColonSpace]
    rw [if_neg (by simp [h c (by simp)])]
    rw [ih (fun x hx => h x (by simp [hx]))]
    rfl

theorem splitColonSpace_append (a b : List Char) (ha : ∀ c ∈ a, ¬c = ':')
    (hb : ∀ c ∈ b, ¬c = ':') :
    splitColonSpace (a ++ ':' :: ' ' :: b) = [a, b] := by
  induction a with
  | nil =>
    rw [List.nil_append, splitColonSpace]
    rw [if_pos ⟨rfl, by simp⟩]
    simp [splitColonSpace_no_colon b hb]
  | cons c cs ih =>
    rw [List.cons_append, splitColonSpace]
    rw [if_neg (by simp [ha c (by simp)])]
    rw [ih (fun x hx => ha x (by simp [hx]))]
    rfl

theorem parseUsize_digits (d : List Char) (hd : ∀ c ∈ d, c.isDigit)
    (hne : d ≠ []) : parseUsize d = some (digitsVal d) := by
  obtain ⟨c, cs, rfl⟩ := List.exists_cons_of_ne_nil hne
  have hcp : ¬c = '+' := ne_of_digit_of_not c '+' (hd c (by simp)) (by decide)
  have hall : (c :: cs).all Char.isDigit = true :=
    List.all_eq_true.mpr (fun x hx => hd x hx)
  simp [parseUsize, hcp, hall]

theorem parse_header_content_length_digits (d : List Char)
    (hd : ∀ c ∈ d, c.isDigit) (hne : d ≠ []) :
    parse_header ("Content-Length: ".toList ++ (d ++ ['\r', '\n']))
      = Except.ok (LspHeader.contentLength (digitsVal d)) := by
  have hCL : "Content-Length: ".toList = "Content-Length".toList ++ [':', ' '] := by
    decide
  have hval : ∀ c ∈ d ++ ['\r', '\n'], ¬c = ':' := by
    intro c hc
    rcases List.mem_append.mp hc with hin | hin
    · exact ne_of_digit_of_not c ':' (hd c hin) (by decide)
    · simp only [List.mem_cons, List.mem_singleton] at hin
      rcases hin with e | e | e
      · rw [e]; decide
      · rw [e]; decide
      · exact absurd e (by simp)
  have hsplit : splitColonSpace ("Content-Length: ".toList ++ (d ++ ['\r', '\n']))
      = ["Content-Length".toList, d ++ ['\r', '\n']] := by
    rw [hCL, List.append_assoc,
      show ([':', ' '] : List Char) ++ (d ++ ['\r', '\n'])
        = ':' :: ' ' :: (d ++ ['\r', '\n']) from rfl]
    exact splitColonSpace_append _ _ (by decide) hval
  unfold parse_header
  rw [hsplit]
  simp only [List.map_cons, List.map_nil]
  rw [trimChars_of_all "Content-Length".toList (by decide),
    show lowerStr "Content-Length".toList = "content-length".toList from by decide,
    trimChars_digits_crlf d hd hne, lowerStr_digits d hd]
  rw [if_neg (by decide), if_pos rfl, parseUsize_digits d hd hne]

/-- Stepping `readHeaders` across one `Content-Length` line. -/
theorem readHeaders_cl_line (n : Nat) (tail : List Char) (cl : Option Nat) :
    readHeaders ("Content-Length: ".toList ++ natChars n ++ '\r' :: '\n' :: tail) cl
      = readHeaders tail (some n) := by
  have hnl : '\n' ∉ "Content-Length: ".toList ++ natChars n ++ ['\r'] := by
    intro hmem
    rcases List.mem_append.mp hmem with hmem | hmem
    · rcases List.mem_append.mp hmem with hmem | hmem
      · revert hmem; decide
      · have := natChars_all_digit n '\n' hmem
        exact absurd this (by decide)
    · revert hmem; simp
  have hshape : "Content-Length: ".toList ++ natChars n ++ '\r' :: '\n' :: tail
      = ("Content-Length: ".toList ++ natChars n ++ ['\r']) ++ '\n' :: tail := by
    simp
  have hline := readLine_append ("Content-Length: ".toList ++ natChars n ++ ['\r'])
    tail hnl
  rw [readHeaders, hshape, hline]
  have hlineshape : ("Content-Length: ".toList ++ natChars n ++ ['\r']) ++ ['\n']
      = "Content-Length: ".toList ++ (natChars n ++ ['\r', '\n']) := by
    simp
  rw [dif_neg (by
    rw [hlineshape]
    exact trimChars_ne_nil _ 'C' (List.mem_append.mpr (Or.inl (by decide)))
      (by decide))]
  rw [hlineshape, parse_header_content_length_digits (natChars n)
    (natChars_all_digit n) (natChars_ne_nil n), digitsVal_natChars]

/-- Stepping `readHeaders` across the blank line that ends the headers. -/
theorem readHeaders_blank (tail : List Char) (cl : Option Nat) :
    readHeaders ('\r' :: '\n' :: tail) cl = (Except.ok cl, tail) := by
  rw [readHeaders]
  have hline : readLine ('\r' :: '\n' :: tail) = (['\r', '\n'], tail) := by
    rw [show ('\r' :: '\n' :: tail : List Char) = ['\r'] ++ '\n' :: tail from rfl]
    exact readLine_append ['\r'] tail (by decide)
  rw [hline]
  rw [dif_pos (show trimChars (['\r', '\n'], tail).1 = [] from rfl)]

theorem takeUtf8_all (l : List Char) : takeUtf8 (utf8Len l) l = some (l, []) := by
  have h := takeUtf8_exact l []
  rwa [List.append_nil] at h

/-- `read_message` on a well-formed single-`Content-Length` frame. -/
theorem read_message_frame (v : Json) :
    read_message ("Content-Length: ".toList ++ natChars (utf8Len (serJson v))
      ++ '\r' :: '\n' :: ('\r' :: '\n' :: serJson v)) = (Except.ok v, []) := by
  unfold read_message
  rw [readHeaders_cl_line, readHeaders_blank]
  simp [takeUtf8_all, from_str_serJson]

/-! ## Client connection (src/client.rs) -/

/-- Model of the shared `LanguageServer` state: the pending table
(`HashMap<usize, Callback>`, association list with unique keys) and the
next-id counter.  Callback values are opaque tokens. -/
structure LSState where
  pending : List (Nat × Nat)
  nextId : Nat
deriving DecidableEq, Repr

/-- `HashMap::insert` on the association-list model: replace an existing
key or append at the end. -/
def mapInsert (k v : Nat) : List (Nat × Nat) → List (Nat × Nat)
  | [] => [(k, v)]
  | (k', v') :: rest =>
    if k' = k then (k, v) :: rest else (k', v') :: mapInsert k v rest

/-- `HashMap::remove` on the association-list model: the removed value
and the remaining table, or `none` when absent. -/
def mapRemove (k : Nat) : List (Nat × Nat) → Option (Nat × List (Nat × Nat))
  | [] => none
  | (k', v') :: rest =>
    if k' = k then some (v', rest)
    else
      match mapRemove k rest with
      | none => none
      | some (v, rest') => some (v, (k', v') :: rest')

/-- The keys of a pending table. -/
def pendingKeys (p : List (Nat × Nat)) : List Nat := p.map Prod.fst

/-- Result of a send operation: the successor state and the JSON-RPC
envelope handed to `send_rpc`. -/
structure SendResult where
  state : LSState
  message : Json

/-- Model of `LanguageServer::send_request` (src/client.rs lines 51-62):
build the request envelope carrying `next_id`, insert the completion
into the pending table under `next_id`, then increment `next_id`. -/
def send_request (st : LSState) (method : List Char) (params : Json) (cb : Nat) :
    SendResult :=
  { state := { pending := mapInsert st.nextId cb st.pending, nextId := st.nextId + 1 },
    message := Json.obj [("jsonrpc".toList, Json.str "2.0".toList),
      ("id".toList, Json.num st.nextId),
      ("method".toList, Json.str method),
      ("params".toList, params)] }

/-- Model of `LanguageServer::send_notification` (lines 64-71): no id
field, no pending-table entry, state unchanged. -/
def send_notification (st : LSState) (method : List Char) (params : Json) :
    SendResult :=
  { state := st,
    message := Json.obj [("jsonrpc".toList, Json.str "2.0".toList),
      ("method".toList, Json.str method),
      ("params".toList, params)] }

/-- Outcome of a dispatch step: the connection continues with a new
state and a list of callback invocations `(token, argument)`, or the
reader thread panics (Rust `expect`/`unwrap`/`panic!`). -/
inductive DispatchOutcome where
  | next (st : LSState) (invoked : List (Nat × Except Json Json)) : DispatchOutcome
  | panicked (msg : String) : DispatchOutcome

/-- Model of `LanguageServer::handle_response` (lines 73-76): remove the
pending entry — `expect`ing it to be present — and invoke it with
`Ok(result)`. -/
def handle_response (st : LSState) (id : Nat) (result : Json) : DispatchOutcome :=
  match mapRemove id st.pending with
  | none => DispatchOutcome.panicked "id missing from request table"
  | some (cb, rest) =>
    DispatchOutcome.next { st with pending := rest } [(cb, Except.ok result)]

/-- Model of `LanguageServer::handle_error` (lines 78-81): same removal,
invoking the completion with `Err(error)`. -/
def handle_error (st : LSState) (id : Nat) (error : Json) : DispatchOutcome :=
  match mapRemove id st.pending with
  | none => DispatchOutcome.panicked "id missing from request table"
  | some (cb, rest) =>
    DispatchOutcome.next { st with pending := rest } [(cb, Except.error error)]

/-- Model of `number_from_id` (lines 96-105): `expect` the id to be
present, then accept a non-negative JSON number (`as_u64`) or a string
of base-10 digits (`u64::from_str_radix(s, 10)`); any other value —
including `null` — panics with "unexpected value for id field". -/
def number_from_id (id : Option Json) : Except String Nat :=
  match id with
  | none => Except.error "response missing id field"
  | some (Json.num n) =>
    if n < 0 then Except.error "failed to take id as u64"
    else Except.ok n.toNat
  | some (Json.str s) =>
    match parseUsize s with
    | some n => Except.ok n
    | none => Except.error "failed to convert string id to u64"
  | some _ => Except.error "unexpected value for id field"

/-- Field lookup on a JSON object's member list (`Map::get`). -/
def lookupField (key : List Char) : List (List Char × Json) → Option Json
  | [] => none
  | (k, v) :: rest => if k = key then some v else lookupField key rest

/-- Field removal on a JSON object's member list (`Map::remove`). -/
def removeField (key : List Char) : List (List Char × Json) →
    Option (Json × List (List Char × Json))
  | [] => none
  | (k, v) :: rest =>
    if k = key then some (v, rest)
    else
      match removeField key rest with
      | none => none
      | some (v', rest') => some (v', (k, v) :: rest')

/-- `Value::is_null`. -/
def isNullJson : Json → Bool
  | Json.null => true
  | _ => false

/-- Model of `jsonrpc_lite::JsonRPC` after `parse_object`: the inbound
message classification.  (The `jsonrpc-lite` crate is an external
dependency; per the spec, inbound messages classify as Request (has
`method` and `id`), Notification (`method`, no `id`), Success
(`result`), Error (`error`), or malformed.) -/
inductive JsonRpcMsg where
  | request (obj : Json) : JsonRpcMsg
  | notification (obj : Json) : JsonRpcMsg
  | success (fields : List (List Char × Json)) : JsonRpcMsg
  | error (fields : List (List Char × Json)) : JsonRpcMsg
  | errorRequest : JsonRpcMsg

/-- Modelled from the spec: classification of a decoded message (the
`jsonrpc-lite` crate's `JsonRPC::parse_object` is not part of this
repository). -/
def parse_object (v : Json) : JsonRpcMsg :=
  match v with
  | Json.obj fields =>
    if (lookupField "method".toList fields).isSome then
      if (lookupField "id".toList fields).isSome then JsonRpcMsg.request v
      else JsonRpcMsg.notification v
    else if (lookupField "result".toList fields).isSome then JsonRpcMsg.success fields
    else if (lookupField "error".toList fields).isSome then JsonRpcMsg.error fields
    else JsonRpcMsg.errorRequest
  | _ => JsonRpcMsg.errorRequest

/-- Model of `LanguageServerRef::handle_msg` (src/client.rs lines
124-145).  The `Error` arm reflects the source exactly: it tests
`obj.get("id").expect("error missing id field").is_null()` and, when
the id IS null, calls `handle_error(number_from_id(obj.get("id")), ..)`
— while a non-null id is only logged (`print_err!`). -/
def handle_msg (st : LSState) (msg : JsonRpcMsg) : DispatchOutcome :=
  match msg with
  | JsonRpcMsg.request _ => DispatchOutcome.next st []
  | JsonRpcMsg.notification _ => DispatchOutcome.next st []
  | JsonRpcMsg.success fields =>
    match number_from_id (lookupField "id".toList fields) with
    | Except.error e => DispatchOutcome.panicked e
    | Except.ok id =>
      match removeField "result".toList fields with
      | none => DispatchOutcome.panicked "response missing result field"
      | some (result, _) => handle_response st id result
  | JsonRpcMsg.error fields =>
    match lookupField "id".toList fields with
    | none => DispatchOutcome.panicked "error missing id field"
    | some idv =>
      if isNullJson idv then
        match number_from_id (lookupField "id".toList fields) with
        | Except.error e => DispatchOutcome.panicked e
        | Except.ok id =>
          match removeField "error".toList fields with
          | none => DispatchOutcome.panicked "called Option::unwrap on a None value"
          | some (err, _) => handle_error st id err
      else DispatchOutcome.next st []
  | JsonRpcMsg.errorRequest => DispatchOutcome.next st []

/-- Outcome of `send_rpc` (src/client.rs lines 83-89): the encoded frame
is written to the peer, or the thread panics. -/
inductive SendRpcOutcome where
  | written (wire : List Char) : SendRpcOutcome
  | panicked (msg : String) : SendRpcOutcome
deriving DecidableEq, Repr

/-- The `match prepare_lsp_json(&rpc)` inside `send_rpc`, factored over
the encode result: `Ok` is written, `Err` PANICS — it is not returned
to the caller as an error value. -/
def send_rpc_outcome (encoded : Except String (List Char)) : SendRpcOutcome :=
  match encoded with
  | Except.ok r => SendRpcOutcome.written r
  | Except.error _ => SendRpcOutcome.panicked "error encoding rpc"

/-- Model of `LanguageServer::send_rpc`. -/
def send_rpc (rpc : Json) : SendRpcOutcome :=
  send_rpc_outcome (prepare_lsp_json rpc)

/-- The initial connection state (`LanguageServerRef::new`, lines
108-114): empty pending table, `next_id = 1`. -/
def initState : LSState := { pending := [], nextId := 1 }

/-- Issue `n` requests in sequence; the callback token for each request
is drawn from `cbf` at the id it is allocated. -/
def sendN (cbf : Nat → Nat) (method : List Char) (params : Json) :
    Nat → LSState → LSState
  | 0, st => st
  | n + 1, st =>
    sendN cbf method params n (send_request st method params (cbf st.nextId)).state

/-- Outcome of dispatching a list of responses. -/
inductive RunOutcome where
  | finished (st : LSState) (invoked : List (Nat × Except Json Json)) : RunOutcome
  | panicked (msg : String) : RunOutcome

/-- Dispatch success responses `(id, result)` in order through
`handle_response`, accumulating the callback invocations; a panic
aborts the run. -/
def runResponses (st : LSState) : List (Nat × Json) → RunOutcome
  | [] => RunOutcome.finished st []
  | (i, r) :: rest =>
    match handle_response st i r with
    | DispatchOutcome.panicked m => RunOutcome.panicked m
    | DispatchOutcome.next st' inv =>
      match runResponses st' rest with
      | RunOutcome.panicked m => RunOutcome.panicked m
      | RunOutcome.finished st'' invs => RunOutcome.finished st'' (inv ++ invs)

/-- One iteration of the background reader loop (src/client.rs lines
176-181): read a message; `Ok` dispatches through `handle_msg`, `Err`
prints the parse error and continues.  The source loop body has no
`break` or `return`, so `LoopStep` has no terminating alternative —
only continuation or panic. -/
inductive LoopStep where
  | next (rest : List Char) (st : LSState)
      (invoked : List (Nat × Except Json Json)) : LoopStep
  | panicked (msg : String) : LoopStep

/-- A single pass around the `loop`. -/
def loop_iter (input : List Char) (st : LSState) : LoopStep :=
  match read_message input with
  | (Except.ok v, rest) =>
    match handle_msg st (parse_object v) with
    | DispatchOutcome.next st' inv => LoopStep.next rest st' inv
    | DispatchOutcome.panicked m => LoopStep.panicked m
  | (Except.error _, rest) => LoopStep.next rest st []

/-- `k` passes around the reader loop, accumulating invocations. -/
def loop_run (k : Nat) (input : List Char) (st : LSState) : LoopStep :=
  match k with
  | 0 => LoopStep.next input st []
  | k + 1 =>
    match loop_iter input st with
    | LoopStep.panicked m => LoopStep.panicked m
    | LoopStep.next rest st' inv =>
      match loop_run k rest st' with
      | LoopStep.panicked m => LoopStep.panicked m
      | LoopStep.next rest' st'' invs => LoopStep.next rest' st'' (inv ++ invs)

/-! ## Id allocation and dispatch lemmas (for the pending-table claims) -/

theorem mapInsert_fresh (k v : Nat) (p : List (Nat × Nat))
    (h : k ∉ pendingKeys p) : mapInsert k v p = p ++ [(k, v)] := by
  induction p with
  | nil => rfl
  | cons e rest ih =>
    obtain ⟨k', v'⟩ := e
    have hk : ¬k' = k := by
      intro e
      exact h (by simp [pendingKeys, e])
    simp only [mapInsert, if_neg hk, List.cons_append, List.cons.injEq, true_and]
    exact ih (fun hmem => h (by simp [pendingKeys] at hmem ⊢; tauto))

theorem sendN_spec (cbf : Nat → Nat) (method : List Char) (params : Json) :
    ∀ (n : Nat) (p : List (Nat × Nat)) (m : Nat),
    (∀ j ∈ pendingKeys p, j < m) →
    sendN cbf method params n ⟨p, m⟩
      = ⟨p ++ (List.range' m n).map (fun i => (i, cbf i)), m + n⟩ := by
  intro n
  induction n with
  | zero => intro p m h; simp [sendN]
  | succ n ih =>
    intro p m h
    have hfresh : m ∉ pendingKeys p := fun hmem => absurd (h m hmem) (by omega)
    simp only [sendN, send_request]
    rw [mapInsert_fresh m (cbf m) p hfresh]
    rw [ih (p ++ [(m, cbf m)]) (m + 1) (by
      intro j hj
      simp only [pendingKeys, List.map_append, List.mem_append] at hj
      rcases hj with hj | hj
      · exact lt_trans (h j hj) (by omega)
      · simp at hj
        omega)]
    rw [List.range'_succ]
    simp only [List.map_cons, List.append_assoc, List.singleton_append,
      LSState.mk.injEq]
    exact ⟨trivial, by omega⟩

theorem mapRemove_ids (cbf : Nat → Nat) (i : Nat) :
    ∀ (ids : List Nat), i ∈ ids →
    mapRemove i (ids.map (fun j => (j, cbf j)))
      = some (cbf i, (ids.erase i).map (fun j => (j, cbf j))) := by
  intro ids
  induction ids with
  | nil => intro h; exact absurd h (by simp)
  | cons j rest ih =>
    intro hmem
    by_cases hj : j = i
    · subst hj
      simp [mapRemove, List.erase_cons_head]
    · have hi : i ∈ rest := by
        rcases List.mem_cons.mp hmem with e | e
        · exact absurd e.symm hj
        · exact e
      simp only [List.map_cons, mapRemove, if_neg hj, ih hi]
      rw [List.erase_cons_tail]
      · simp
      · simp [hj]

theorem runResponses_perm (cbf : Nat → Nat) (resp : Nat → Json) :
    ∀ (order ids : List Nat) (m : Nat), ids.Nodup → order.Perm ids →
    runResponses ⟨ids.map (fun i => (i, cbf i)), m⟩ (order.map (fun i => (i, resp i)))
      = RunOutcome.finished ⟨[], m⟩
          (order.map (fun i => (cbf i, Except.ok (resp i)))) := by
  intro order
  induction order with
  | nil =>
    intro ids m hnd hperm
    rw [List.Perm.eq_nil hperm.symm]
    simp [runResponses]
  | cons i order ih =>
    intro ids m hnd hperm
    obtain ⟨hmem, hperm'⟩ := List.cons_perm_iff_perm_erase.mp hperm
    have hrem := mapRemove_ids cbf i ids hmem
    simp only [List.map_cons, runResponses, handle_response, hrem]
    rw [ih (ids.erase i) m (hnd.erase i) hperm']
    rfl

/-! ## The claim C7 comparison definition (spec-side split-once) -/

/-- Split at the FIRST occurrence of `": "` only (the spec sentence for
C7 says "split once"); `none` when no separator occurs. -/
def splitOnce : List Char → List Char × Option (List Char)
  | [] => ([], none)
  | c :: rest =>
    if c = ':' ∧ rest.head? = some ' ' then ([], some rest.tail)
    else
      let p := splitOnce rest
      (c :: p.1, p.2)

/-- Follows the spec's words for C7: split the line once on `": "`,
lowercase the trimmed name and value, and recognize exactly the two
header names. -/
def parse_header_specOnce (s : List Char) : Except ParseError LspHeader :=
  match splitOnce s with
  | (_, none) => Except.error (ParseError.unknown "malformed header")
  | (rawName, some rawValue) =>
    let name := lowerStr (trimChars rawName)
    let value := lowerStr (trimChars rawValue)
    if name = "content-type".toList then Except.ok LspHeader.contentType
    else if name = "content-length".toList then
      match parseUsize value with
      | some n => Except.ok (LspHeader.contentLength n)
      | none => Except.error ParseError.parseIntErr
    else Except.error (ParseError.unknown "Unknown header")

theorem splitColonSpace_step (a b : List Char) (ha : ∀ c ∈ a, ¬c = ':') :
    splitColonSpace (a ++ ':' :: ' ' :: b) = a :: splitColonSpace b := by
  induction a with
  | nil =>
    rw [List.nil_append, splitColonSpace]
    rw [if_pos ⟨rfl, by simp⟩]
    rfl
  | cons c cs ih =>
    rw [List.cons_append, splitColonSpace]
    rw [if_neg (by simp [ha c (by simp)])]
    rw [ih (fun x hx => ha x (by simp [hx]))]
    rfl

theorem splitColonSpace_content_type_line :
    splitColonSpace "Content-Type: a: b".toList
      = ["Content-Type".toList, "a".toList, "b".toList] := by
  rw [show "Content-Type: a: b".toList
      = "Content-Type".toList ++ ':' :: ' ' :: ("a".toList ++ ':' :: ' ' :: "b".toList)
    from rfl]
  rw [splitColonSpace_step _ _ (by decide), splitColonSpace_step _ _ (by decide),
    splitColonSpace_no_colon _ (by decide)]

/-! ## Claim theorems -/

/-- C1 (code bug): the claim says an inbound Error whose id is null is
logged, invokes no callback, removes nothing, and the connection
continues.  The code has the `is_null()` test inverted (src/client.rs
line 135): a NULL id enters the `handle_error` branch and
`number_from_id(Some(Null))` panics with "unexpected value for id
field", killing the reader thread.  This theorem evaluates the code at
the failing input. -/
theorem claim_C1_null_id_error_panics (st : LSState)
    (fields : List (List Char × Json))
    (h : lookupField "id".toList fields = some Json.null) :
    handle_msg st (JsonRpcMsg.error fields)
      = DispatchOutcome.panicked "unexpected value for id field" := by
  simp only [handle_msg, h, isNullJson, if_true, number_from_id]

/-- Witness for C1 at a concrete inbound error message. -/
theorem claim_C1_null_id_error_panics_witness :
    handle_msg initState (JsonRpcMsg.error
        [("id".toList, Json.null), ("error".toList, Json.str "oops".toList)])
      = DispatchOutcome.panicked "unexpected value for id field" :=
  claim_C1_null_id_error_panics initState
    [("id".toList, Json.null), ("error".toList, Json.str "oops".toList)] rfl

/-- C2 (code bug): the claim says an inbound Error with a non-null id
present in the pending table removes that entry and invokes its
completion once with the error payload.  Because the `is_null()` test
is inverted (src/client.rs lines 134-142), the code only logs such an
error: the state is unchanged and no completion is invoked, even when
the id is pending (hypotheses `hid`, `hpending`). -/
theorem claim_C2_nonnull_id_error_only_logged (st : LSState)
    (fields : List (List Char × Json)) (n cb : Nat) (rest : List (Nat × Nat))
    (hid : lookupField "id".toList fields = some (Json.num (n : Int)))
    (hpending : mapRemove n st.pending = some (cb, rest)) :
    handle_msg st (JsonRpcMsg.error fields) = DispatchOutcome.next st [] := by
  simp only [handle_msg, hid]
  rw [if_neg (show ¬isNullJson (Json.num (n : Int)) = true from by simp [isNullJson])]

/-- Witness for C2: id 5 is pending, yet the error dispatch leaves the
state untouched and invokes nothing. -/
theorem claim_C2_nonnull_id_error_only_logged_witness :
    handle_msg ⟨[(5, 9)], 6⟩ (JsonRpcMsg.error
        [("id".toList, Json.num 5), ("error".toList, Json.null)])
      = DispatchOutcome.next ⟨[(5, 9)], 6⟩ [] :=
  claim_C2_nonnull_id_error_only_logged ⟨[(5, 9)], 6⟩
    [("id".toList, Json.num 5), ("error".toList, Json.null)] 5 9 [] rfl rfl

/-- C3 (confirmed): Success dispatch extracts the id from either a JSON
number or a JSON string of base-10 digits; a pending id is removed and
its completion invoked with the success payload; an id absent from the
pending table panics ("id missing from request table") — the
unrecoverable protocol-invariant violation — rather than being silently
ignored. -/
theorem claim_C3_success_dispatch (st₁ st₂ : LSState)
    (fields : List (List Char × Json)) (n cb : Nat) (payload : Json)
    (leftover : List (List Char × Json)) (rest : List (Nat × Nat))
    (hid : lookupField "id".toList fields = some (Json.num (n : Int)))
    (hres : removeField "result".toList fields = some (payload, leftover))
    (hin : mapRemove n st₁.pending = some (cb, rest))
    (hout : mapRemove n st₂.pending = none) :
    (number_from_id (some (Json.num (n : Int))) = Except.ok n
      ∧ number_from_id (some (Json.str (natChars n))) = Except.ok n)
    ∧ handle_msg st₁ (JsonRpcMsg.success fields)
        = DispatchOutcome.next ⟨rest, st₁.nextId⟩ [(cb, Except.ok payload)]
    ∧ handle_msg st₂ (JsonRpcMsg.success fields)
        = DispatchOutcome.panicked "id missing from request table" := by
  have hnum : number_from_id (some (Json.num (n : Int))) = Except.ok n := by
    simp [number_from_id]
  have hstr : number_from_id (some (Json.str (natChars n))) = Except.ok n := by
    simp [number_from_id, parseUsize_digits (natChars n) (natChars_all_digit n)
      (natChars_ne_nil n), digitsVal_natChars]
  refine ⟨⟨hnum, hstr⟩, ?_, ?_⟩
  · simp only [handle_msg, hid, hnum, hres, handle_response, hin]
  · simp only [handle_msg, hid, hnum, hres, handle_response, hout]

/-- Witness for C3: a concrete success frame against a state holding
the id and a state not holding it. -/
theorem claim_C3_success_dispatch_witness :
    (number_from_id (some (Json.num ((3 : Nat) : Int))) = Except.ok 3
      ∧ number_from_id (some (Json.str (natChars 3))) = Except.ok 3)
    ∧ handle_msg ⟨[(3, 11)], 4⟩ (JsonRpcMsg.success
        [("id".toList, Json.num 3), ("result".toList, Json.bool true)])
        = DispatchOutcome.next ⟨[], 4⟩ [(11, Except.ok (Json.bool true))]
    ∧ handle_msg ⟨[], 4⟩ (JsonRpcMsg.success
        [("id".toList, Json.num 3), ("result".toList, Json.bool true)])
        = DispatchOutcome.panicked "id missing from request table" :=
  claim_C3_success_dispatch ⟨[(3, 11)], 4⟩ ⟨[], 4⟩
    [("id".toList, Json.num 3), ("result".toList, Json.bool true)]
    3 11 (Json.bool true) [("id".toList, Json.num 3)] [] rfl rfl rfl rfl

/-- C4 (confirmed): N `send_request`s from the initial state allocate
the distinct ids 1..N (starting at 1, incrementing by one per request);
`send_notification` changes no state (so consumes no id); every id
occurs in the pending table exactly once (the key list is nodup); and
dispatching the N matching responses in ANY order (`order` is an
arbitrary permutation of 1..N) invokes each completion exactly once
with the response bearing its own id. -/
theorem claim_C4_id_allocation_and_dispatch (N : Nat) (cbf : Nat → Nat)
    (resp : Nat → Json) (method : List Char) (params : Json)
    (order : List Nat) (hperm : order.Perm (List.range' 1 N)) :
    (sendN cbf method params N initState).pending
        = (List.range' 1 N).map (fun i => (i, cbf i))
    ∧ (sendN cbf method params N initState).nextId = N + 1
    ∧ pendingKeys ((sendN cbf method params N initState).pending) = List.range' 1 N
    ∧ (pendingKeys ((sendN cbf method params N initState).pending)).Nodup
    ∧ (∀ (st : LSState) (m : List Char) (p : Json),
        (send_notification st m p).state = st)
    ∧ runResponses (sendN cbf method params N initState)
        (order.map (fun i => (i, resp i)))
        = RunOutcome.finished ⟨[], N + 1⟩
            (order.map (fun i => (cbf i, Except.ok (resp i)))) := by
  have hsend : sendN cbf method params N initState
      = ⟨(List.range' 1 N).map (fun i => (i, cbf i)), N + 1⟩ := by
    have h := sendN_spec cbf method params N [] 1 (by simp [pendingKeys])
    rw [show initState = (⟨[], 1⟩ : LSState) from rfl, h]
    simp [Nat.add_comm]
  have hkeys : pendingKeys ((List.range' 1 N).map (fun i => (i, cbf i)))
      = List.range' 1 N := by
    simp only [pendingKeys, List.map_map]
    rw [show (Prod.fst ∘ fun i : Nat => (i, cbf i)) = fun i : Nat => i from rfl]
    simp
  refine ⟨by rw [hsend], by rw [hsend], by rw [hsend]; exact hkeys, ?_,
    fun st m p => rfl, ?_⟩
  · rw [hsend]
    simp only [hkeys]
    exact List.nodup_range' 1 N
  · rw [hsend]
    exact runResponses_perm cbf resp order (List.range' 1 N) (N + 1)
      (List.nodup_range' 1 N) hperm

/-- Witness for C4 with N = 2 and the out-of-order dispatch [2, 1]:
each completion receives the response matching its own id. -/
theorem claim_C4_id_allocation_and_dispatch_witness :
    runResponses (sendN (fun i => i) "m".toList Json.null 2 initState)
        ([2, 1].map (fun i => (i, Json.num (i : Int))))
      = RunOutcome.finished ⟨[], 3⟩
          [(2, Except.ok (Json.num 2)), (1, Except.ok (Json.num 1))] := by
  have h := (claim_C4_id_allocation_and_dispatch 2 (fun i => i)
    (fun i => Json.num (i : Int)) "m".toList Json.null [2, 1] (by decide)).2.2.2.2.2
  simpa using h

/-- C5 (confirmed): the round-trip — decoding the byte stream that
`prepare_lsp_json` produces for any JSON value yields exactly that
value (and consumes the whole stream). -/
theorem claim_C5_roundtrip (v : Json) :
    ∃ wire, prepare_lsp_json v = Except.ok wire
      ∧ read_message wire = (Except.ok v, []) := by
  refine ⟨_, rfl, ?_⟩
  rw [show ("Content-Length: ".toList ++ natChars (utf8Len (serJson v))
      ++ "\r\n\r\n".toList ++ serJson v)
      = "Content-Length: ".toList ++ natChars (utf8Len (serJson v))
        ++ '\r' :: '\n' :: ('\r' :: '\n' :: serJson v) from by
    rw [show "\r\n\r\n".toList = ['\r', '\n', '\r', '\n'] from rfl]
    simp]
  exact read_message_frame v

/-- C6 (confirmed): the encoded frame is exactly
`"Content-Length: {n}\r\n\r\n{body}"` with `body` the compact
serialization and `n` its exact UTF-8 byte length; the header block
consists of that single `Content-Length` line (no `Content-Type` is
emitted), and parsing it back yields exactly `n`. -/
theorem claim_C6_encode_format (v : Json) :
    prepare_lsp_json v = Except.ok ("Content-Length: ".toList
        ++ natChars (utf8Len (serJson v)) ++ "\r\n\r\n".toList ++ serJson v)
    ∧ parse_header ("Content-Length: ".toList
        ++ (natChars (utf8Len (serJson v)) ++ ['\r', '\n']))
      = Except.ok (LspHeader.contentLength (utf8Len (serJson v)))
    ∧ readHeaders ("Content-Length: ".toList ++ natChars (utf8Len (serJson v))
        ++ '\r' :: '\n' :: ('\r' :: '\n' :: serJson v)) none
      = (Except.ok (some (utf8Len (serJson v))), serJson v) := by
  refine ⟨rfl, ?_, ?_⟩
  · rw [parse_header_content_length_digits _ (natChars_all_digit _)
      (natChars_ne_nil _), digitsVal_natChars]
  · rw [readHeaders_cl_line, readHeaders_blank]

/-- C8 (code bug): the claim says a read failure or EOF terminates the
background loop with pending requests never completed.  The source loop
(src/client.rs lines 176-181) has no break: at EOF `read_message`
returns `Err(missing content-length)` having consumed nothing, and the
loop prints and retries forever.  Pending requests are indeed never
completed (no invocation, state unchanged), but the loop never
terminates: after ANY number of iterations at EOF it is in exactly the
same configuration. -/
theorem claim_C8_eof_loop_never_terminates (st : LSState) (k : Nat) :
    read_message []
      = (Except.error (ParseError.unknown "missing content-length header"), [])
    ∧ loop_iter [] st = LoopStep.next [] st []
    ∧ loop_run k [] st = LoopStep.next [] st [] := by
  have h1 : readHeaders [] none = (Except.ok none, []) := by
    rw [readHeaders]
    rw [dif_pos (show trimChars (readLine []).1 = [] from rfl)]
    rfl
  have h2 : read_message []
      = (Except.error (ParseError.unknown "missing content-length header"), []) := by
    unfold read_message
    rw [h1]
  have h3 : loop_iter [] st = LoopStep.next [] st [] := by
    unfold loop_iter
    rw [h2]
  refine ⟨h2, h3, ?_⟩
  induction k with
  | zero => rfl
  | succ k ih =>
    unfold loop_run
    rw [h3]
    simp [ih]

/-- C9 (corrected): the claim says a serialization failure is reported
to the caller of `send_request`/`send_notification` as an error result.
`prepare_lsp_json` does fail with an error result, but `send_rpc`
(src/client.rs lines 83-89) matches on it and PANICS on `Err` — the
error surfaces at the call site as a panic, not as an error result
returned to the caller. -/
theorem claim_C9_encode_error_panics :
    (∀ e : String, send_rpc_outcome (Except.error e)
        = SendRpcOutcome.panicked "error encoding rpc")
    ∧ (∀ r : List Char, send_rpc_outcome (Except.ok r) = SendRpcOutcome.written r)
    ∧ (∀ v : Json, send_rpc v = SendRpcOutcome.written ("Content-Length: ".toList
        ++ natChars (utf8Len (serJson v)) ++ "\r\n\r\n".toList ++ serJson v)) := by
  refine ⟨fun e => rfl, fun r => rfl, fun v => ?_⟩
  rfl

/-- Counterexample for C9: at a concrete encode failure the `send_rpc`
match produces a panic — not an error result handed back to the
caller. -/
theorem claim_C9_counterexample :
    send_rpc_outcome (Except.error "key must be a string")
      = SendRpcOutcome.panicked "error encoding rpc" := rfl

/-- C10 (confirmed, implicit claim): a header block listing
`content-length` twice raises no error, and the body is read using the
value of the LAST `content-length` header: the first value `m` is
arbitrary (possibly wrong) yet the message decodes by the second. -/
theorem claim_C10_last_content_length_wins (m : Nat) (v : Json) :
    readHeaders ("Content-Length: ".toList ++ natChars m ++ '\r' :: '\n' ::
        ("Content-Length: ".toList ++ natChars (utf8Len (serJson v)) ++ '\r' :: '\n' ::
          ('\r' :: '\n' :: serJson v))) none
      = (Except.ok (some (utf8Len (serJson v))), serJson v)
    ∧ read_message ("Content-Length: ".toList ++ natChars m ++ '\r' :: '\n' ::
        ("Content-Length: ".toList ++ natChars (utf8Len (serJson v)) ++ '\r' :: '\n' ::
          ('\r' :: '\n' :: serJson v))) = (Except.ok v, []) := by
  constructor
  · rw [readHeaders_cl_line, readHeaders_cl_line, readHeaders_blank]
  · unfold read_message
    rw [readHeaders_cl_line, readHeaders_cl_line, readHeaders_blank]
    simp [takeUtf8_all, from_str_serJson]

/-- Counterexample for C7: on the header line `"Content-Type: a: b"`
the claim's split-ONCE reading recognizes `content-type` (value
ignored), but the code splits on EVERY `": "` occurrence, finds three
parts, and reports a malformed-header error instead. -/
theorem claim_C7_counterexample :
    parse_header_specOnce "Content-Type: a: b".toList
        = Except.ok LspHeader.contentType
    ∧ parse_header "Content-Type: a: b".toList
        = Except.error (ParseError.unknown "malformed header") := by
  constructor
  · rfl
  · unfold parse_header
    rw [splitColonSpace_content_type_line]
    rfl

/-- C7 (amended): the code splits each header line on EVERY occurrence
of `": "` and requires exactly two parts — a line with any other number
of parts is a malformed-header parse error; for a two-part line it
lowercases the trimmed name and value, recognizes exactly
`content-length` (value parsed as a non-negative base-10 integer, parse
failure fatal for the message) and `content-type` (value ignored), and
returns a parse-error value for any other header name (the decoder is a
total function — it does not crash). -/
theorem claim_C7_header_recognition (s name value : List Char)
    (hn : ∀ c ∈ name, ¬c = ':') (hv : ∀ c ∈ value, ¬c = ':')
    (hs : (splitColonSpace s).length ≠ 2) :
    parse_header (name ++ ':' :: ' ' :: value)
      = (if lowerStr (trimChars name) = "content-type".toList then
           Except.ok LspHeader.contentType
         else if lowerStr (trimChars name) = "content-length".toList then
           match parseUsize (lowerStr (trimChars value)) with
           | some k => Except.ok (LspHeader.contentLength k)
           | none => Except.error ParseError.parseIntErr
         else Except.error (ParseError.unknown "Unknown header"))
    ∧ parse_header s = Except.error (ParseError.unknown "malformed header") := by
  constructor
  · unfold parse_header
    rw [splitColonSpace_append name value hn hv]
    rfl
  · unfold parse_header
    cases hsp : splitColonSpace s with
    | nil => rfl
    | cons a t =>
      cases t with
      | nil => rfl
      | cons b t2 =>
        cases t2 with
        | nil => exact absurd (show (splitColonSpace s).length = 2 by simp [hsp]) hs
        | cons c t3 => rfl

/-- Witness for C7: an unknown header name becomes an error value, and
the three-part line is malformed. -/
theorem claim_C7_header_recognition_witness :
    parse_header ("X-Custom".toList ++ ':' :: ' ' :: "42".toList)
        = Except.error (ParseError.unknown "Unknown header")
    ∧ parse_header "Content-Type: a: b".toList
        = Except.error (ParseError.unknown "malformed header") := by
  have h := claim_C7_header_recognition "Content-Type: a: b".toList
    "X-Custom".toList "42".toList (by decide) (by decide)
    (by rw [splitColonSpace_content_type_line]; decide)
  refine ⟨?_, h.2⟩
  rw [h.1]
  rfl

end LspClient
